import Mathlib

/-!
Verification of the eterna-backend token-aggregation core against its
natural-language specification.

The TypeScript sources are shallowly embedded as executable Lean
definitions.  JavaScript numbers are modelled as exact rationals (ℚ);
the few places where IEEE-754 special values (NaN / Infinity) are
observable are modelled explicitly and commented at the definition.
Strings are Lean `String`s; JS truthiness of a value (`x || y`,
`if (x)`) is translated field-by-field: `none`/`0`/`""` are falsy.
-/

namespace Eterna

/-! ## Data model (src/types/index.ts) -/

/-- Canonical token record, from `interface Token`.  Optional TS fields
(`price_24hr_change?`, `price_7d_change?`, `dex_id?`) become `Option`. -/
structure Token where
  token_address : String
  token_name : String
  token_ticker : String
  price_sol : ℚ
  market_cap_sol : ℚ
  volume_sol : ℚ
  liquidity_sol : ℚ
  transaction_count : ℚ
  price_1hr_change : ℚ
  price_24hr_change : Option ℚ
  price_7d_change : Option ℚ
  protocol : String
  dex_id : Option String
  last_updated : ℚ
deriving DecidableEq

/-- `sort_by` values of `interface QueryOptions`. -/
inductive SortBy where
  | volume
  | market_cap
  | liquidity
  | price_change
deriving DecidableEq

/-- `sort_order` values of `interface QueryOptions`. -/
inductive SortOrder where
  | asc
  | desc
deriving DecidableEq

/-- `time_period` values of `interface QueryOptions` (unused by the
aggregation pipeline but part of the option record). -/
inductive TimePeriod where
  | h1
  | h24
  | d7
deriving DecidableEq

/-- Query options, from `interface QueryOptions`.  Every field is
optional in TS; an absent field is `none`.  `limit` is an integer in the
model: the HTTP controller always produces it with `parseInt`. -/
structure QueryOptions where
  limit : Option ℤ := none
  cursor : Option String := none
  time_period : Option TimePeriod := none
  sort_by : Option SortBy := none
  sort_order : Option SortOrder := none
  min_volume : Option ℚ := none
  min_liquidity : Option ℚ := none
deriving DecidableEq

/-- API page result, from `interface TokenResponse`. -/
structure TokenResponse where
  tokens : List Token
  next_cursor : Option String
  total_count : ℕ
  timestamp : ℚ
deriving DecidableEq

/-! ## JS value helpers -/

/-- JS `a || b` for numbers: `0` (and absent) is falsy. -/
def jsOrNum (a : Option ℚ) (b : ℚ) : ℚ :=
  match a with
  | some x => if x = 0 then b else x
  | none => b

/-- JS `a || b` where both operands are numbers (no `undefined`). -/
def jsOrNumNum (a b : ℚ) : ℚ :=
  if a = 0 then b else a

/-- JS `a || b` for optional numbers, keeping the result optional. -/
def jsOrOptNum (a b : Option ℚ) : Option ℚ :=
  match a with
  | some x => if x = 0 then b else some x
  | none => b

/-- JS `a || b` for strings: `""` is falsy. -/
def jsOrStr (a b : String) : String :=
  if a = "" then b else a

/-- JS `a || b` for optional strings. -/
def jsOrOptStr (a b : Option String) : Option String :=
  match a with
  | some s => if s = "" then b else some s
  | none => b

/-- JS `a || b` for an optional integer (the `limit` option). -/
def jsOrInt (a : Option ℤ) (b : ℤ) : ℤ :=
  match a with
  | some x => if x = 0 then b else x
  | none => b

/-! ## Configuration (src/config/index.ts) -/

/-- `config.pagination.defaultLimit`. -/
def paginationDefaultLimit : ℤ := 20

/-- `config.pagination.maxLimit`. -/
def paginationMaxLimit : ℤ := 100

/-! ## Decimal rendering of model numbers

JS `Number#toString` is injective on numeric values; we model it for our
exact rationals by an injective exact rendering: integers render as
their plain signed decimal form (matching JS for the integral values the
controller produces), non-integral rationals as `num/den`. -/

/-- Decimal digit character for `n < 10`. -/
def digitChar48 (n : ℕ) : Char := Char.ofNat (48 + n)

/-- Decimal digit string of a natural number (most significant first). -/
def natToChars (n : ℕ) : List Char :=
  if _h : n < 10 then [digitChar48 n]
  else natToChars (n / 10) ++ [digitChar48 (n % 10)]
termination_by n
decreasing_by exact Nat.div_lt_self (by omega) (by omega)

/-- Signed decimal digit string of an integer. -/
def intToChars (z : ℤ) : List Char :=
  if z < 0 then '-' :: natToChars z.natAbs else natToChars z.toNat

/-- Rendering of a model number (see section comment above). -/
def ratChars (q : ℚ) : List Char :=
  if q.den = 1 then intToChars q.num
  else intToChars q.num ++ '/' :: natToChars q.den

/-! ## Base64 (Node `Buffer.from(s, 'base64')` / `.toString('base64')`) -/

/-- Value of one base64 alphabet character. -/
def b64Val (c : Char) : Option ℕ :=
  if 'A' ≤ c ∧ c ≤ 'Z' then some (c.toNat - 65)
  else if 'a' ≤ c ∧ c ≤ 'z' then some (c.toNat - 97 + 26)
  else if '0' ≤ c ∧ c ≤ '9' then some (c.toNat - 48 + 52)
  else if c = '+' then some 62
  else if c = '/' then some 63
  else none

/-- Base64 alphabet character of a 6-bit value. -/
def b64Char (n : ℕ) : Char :=
  if n < 26 then Char.ofNat (65 + n)
  else if n < 52 then Char.ofNat (97 + (n - 26))
  else if n < 62 then Char.ofNat (48 + (n - 52))
  else if n = 62 then '+'
  else '/'

/-- Decode a list of 6-bit values into bytes; a trailing group of 2 or 3
values yields 1 or 2 bytes, a single leftover value yields nothing
(Node's forgiving decoder). -/
def b64DecodeVals : List ℕ → List ℕ
  | a :: b :: c :: d :: rest =>
      (a * 4 + b / 16) :: ((b % 16) * 16 + c / 4) :: ((c % 4) * 64 + d) ::
        b64DecodeVals rest
  | [a, b] => [a * 4 + b / 16]
  | [a, b, c] => [a * 4 + b / 16, (b % 16) * 16 + c / 4]
  | _ => []

/-- Node base64 decoding of a string into bytes: characters after the
first `=` are ignored, non-alphabet characters are skipped. -/
def nodeB64DecodeBytes (s : String) : List ℕ :=
  b64DecodeVals ((s.data.takeWhile (fun c => c ≠ '=')).filterMap b64Val)

/-- Encode bytes as base64 characters with `=` padding. -/
def b64EncodeBytes : List ℕ → List Char
  | b1 :: b2 :: b3 :: rest =>
      b64Char (b1 / 4) :: b64Char ((b1 % 4) * 16 + b2 / 16) ::
        b64Char ((b2 % 16) * 4 + b3 / 64) :: b64Char (b3 % 64) ::
        b64EncodeBytes rest
  | [b1, b2] =>
      [b64Char (b1 / 4), b64Char ((b1 % 4) * 16 + b2 / 16),
        b64Char ((b2 % 16) * 4), '=']
  | [b1] => [b64Char (b1 / 4), b64Char ((b1 % 4) * 16), '=', '=']
  | [] => []

/-- Is `b` a UTF-8 continuation byte (`10xxxxxx`)? -/
def utf8Cont (b : ℕ) : Bool :=
  128 ≤ b ∧ b ≤ 191

/-- Is `b, b2, b3` a valid 3-byte UTF-8 sequence?  The second-byte
ranges exclude overlong encodings (lead `0xE0`) and surrogates (lead
`0xED`), exactly as a conforming decoder does. -/
def utf8Valid3 (b b2 b3 : ℕ) : Bool :=
  224 ≤ b ∧ b ≤ 239 ∧ utf8Cont b3 ∧
    (if b = 224 then 160 ≤ b2 ∧ b2 ≤ 191
      else if b = 237 then 128 ≤ b2 ∧ b2 ≤ 159
      else utf8Cont b2)

/-- Is `b, b2, b3, b4` a valid 4-byte UTF-8 sequence?  The second-byte
ranges exclude overlong encodings (lead `0xF0`) and code points beyond
U+10FFFF (lead `0xF4`). -/
def utf8Valid4 (b b2 b3 b4 : ℕ) : Bool :=
  240 ≤ b ∧ b ≤ 244 ∧ utf8Cont b3 ∧ utf8Cont b4 ∧
    (if b = 240 then 144 ≤ b2 ∧ b2 ≤ 191
      else if b = 244 then 128 ≤ b2 ∧ b2 ≤ 143
      else utf8Cont b2)

/-- UTF-8 decoding of bytes into characters, as Node
`buffer.toString('utf-8')`.  Every valid sequence (1 to 4 bytes) is
decoded exactly; an invalid byte yields U+FFFD and decoding resumes at
the next byte.  Two deliberate simplifications, neither observable
through `parseInt`: a maximal invalid subsequence may yield more
replacement characters than Node's one-per-sequence rule (U+FFFD is
not whitespace, a sign or a digit), and an astral code point is one
`Char` here where a JS string holds a surrogate pair (surrogates are
not whitespace, signs or digits either). -/
def utf8Decode : List ℕ → List Char
  | [] => []
  | [b] => if b < 128 then [Char.ofNat b] else [Char.ofNat 0xFFFD]
  | [b, b2] =>
    if b < 128 then Char.ofNat b :: utf8Decode [b2]
    else if 194 ≤ b ∧ b ≤ 223 ∧ utf8Cont b2 then
      [Char.ofNat ((b - 192) * 64 + (b2 - 128))]
    else Char.ofNat 0xFFFD :: utf8Decode [b2]
  | [b, b2, b3] =>
    if b < 128 then Char.ofNat b :: utf8Decode [b2, b3]
    else if 194 ≤ b ∧ b ≤ 223 ∧ utf8Cont b2 then
      Char.ofNat ((b - 192) * 64 + (b2 - 128)) :: utf8Decode [b3]
    else if utf8Valid3 b b2 b3 then
      [Char.ofNat ((b - 224) * 4096 + (b2 - 128) * 64 + (b3 - 128))]
    else Char.ofNat 0xFFFD :: utf8Decode [b2, b3]
  | b :: b2 :: b3 :: b4 :: rest =>
    if b < 128 then Char.ofNat b :: utf8Decode (b2 :: b3 :: b4 :: rest)
    else if 194 ≤ b ∧ b ≤ 223 ∧ utf8Cont b2 then
      Char.ofNat ((b - 192) * 64 + (b2 - 128)) :: utf8Decode (b3 :: b4 :: rest)
    else if utf8Valid3 b b2 b3 then
      Char.ofNat ((b - 224) * 4096 + (b2 - 128) * 64 + (b3 - 128)) ::
        utf8Decode (b4 :: rest)
    else if utf8Valid4 b b2 b3 b4 then
      Char.ofNat ((b - 240) * 262144 + (b2 - 128) * 4096 +
          (b3 - 128) * 64 + (b4 - 128)) ::
        utf8Decode rest
    else Char.ofNat 0xFFFD :: utf8Decode (b2 :: b3 :: b4 :: rest)

/-! ## `parseInt` (ECMAScript, radix unspecified, decimal input)

The hexadecimal `0x` form of `parseInt` is not modelled: every cursor
the system itself produces is a plain decimal string. -/

/-- JS whitespace recognised by `parseInt`: the ECMAScript WhiteSpace
production (TAB, VT, FF, SP, NBSP, ZWNBSP and the Unicode Zs category:
U+1680, U+2000–U+200A, U+202F, U+205F, U+3000) together with the four
LineTerminator characters (LF, CR, LS, PS). -/
def isJsSpace (c : Char) : Bool :=
  c = ' ' ∨ c = '\t' ∨ c = '\n' ∨ c = '\r' ∨ c.toNat = 11 ∨
    c.toNat = 12 ∨ c.toNat = 160 ∨ c.toNat = 0x1680 ∨
    (0x2000 ≤ c.toNat ∧ c.toNat ≤ 0x200A) ∨ c.toNat = 0x2028 ∨
    c.toNat = 0x2029 ∨ c.toNat = 0x202F ∨ c.toNat = 0x205F ∨
    c.toNat = 0x3000 ∨ c.toNat = 0xFEFF

/-- Numeric value of a nonempty digit run. -/
def digitsVal (ds : List Char) : ℕ :=
  ds.foldl (fun a c => a * 10 + (c.toNat - 48)) 0

/-- Leading decimal-digit run of a character list, `none` when empty
(`parseInt` → NaN). -/
def parseDigits (cs : List Char) : Option ℕ :=
  let ds := cs.takeWhile (fun c => c.isDigit)
  if ds = [] then none else some (digitsVal ds)

/-- `parseInt(s)`: skip whitespace, optional sign, leading decimal
digits; `none` models NaN. -/
def jsParseInt (cs : List Char) : Option ℤ :=
  let cs1 := cs.dropWhile isJsSpace
  match cs1 with
  | '-' :: rest => (parseDigits rest).map (fun n => -(n : ℤ))
  | '+' :: rest => (parseDigits rest).map (fun n => (n : ℤ))
  | rest => (parseDigits rest).map (fun n => (n : ℤ))

/-! ## AggregationService (src/services/aggregationService.ts) -/

/-- `AggregationService.mergeSingleToken`: merge two token objects for
one address, preferring non-zero / non-empty values of the first. -/
def mergeSingleToken (token1 token2 : Token) : Token :=
  { token_address := token1.token_address
    token_name := jsOrStr token1.token_name token2.token_name
    token_ticker := jsOrStr token1.token_ticker token2.token_ticker
    price_sol := jsOrNumNum token1.price_sol token2.price_sol
    market_cap_sol := max token1.market_cap_sol token2.market_cap_sol
    volume_sol := max token1.volume_sol token2.volume_sol
    liquidity_sol := max token1.liquidity_sol token2.liquidity_sol
    transaction_count := max token1.transaction_count token2.transaction_count
    price_1hr_change := jsOrNumNum token1.price_1hr_change token2.price_1hr_change
    price_24hr_change := jsOrOptNum token1.price_24hr_change token2.price_24hr_change
    price_7d_change := jsOrOptNum token1.price_7d_change token2.price_7d_change
    protocol := if token1.protocol ≠ "Unknown" then token1.protocol else token2.protocol
    dex_id := jsOrOptStr token1.dex_id token2.dex_id
    last_updated := max token1.last_updated token2.last_updated }

/-- ASCII lower-casing of one character (`String.prototype.toLowerCase`
restricted to the ASCII range the addresses use). -/
def lowerChar (c : Char) : Char :=
  if 65 ≤ c.toNat ∧ c.toNat ≤ 90 then Char.ofNat (c.toNat + 32) else c

/-- `token_address.toLowerCase()`. -/
def jsToLower (s : String) : String :=
  String.mk (s.data.map lowerChar)

/-- One step of `tokenMap.set` in `mergeTokens`: if the key is
present, replace its value in place by the pairwise merge (JS `Map.set`
keeps the original insertion position); otherwise append. -/
def setMerge : List (String × Token) → String → Token → List (String × Token)
  | [], k, t => [(k, t)]
  | (k', e) :: rest, k, t =>
      if k' = k then (k', mergeSingleToken e t) :: rest
      else (k', e) :: setMerge rest k t

/-- `AggregationService.mergeTokens`: fold the input through the map
keyed by lower-cased address, then list the values in insertion order. -/
def mergeTokens (tokens : List Token) : List Token :=
  (tokens.foldl (fun m t => setMerge m (jsToLower t.token_address) t) []).map Prod.snd

/-- `AggregationService.applyFilters`.  `if (options.min_volume)` uses
JS truthiness: an absent or zero threshold applies no filter. -/
def applyFilters (tokens : List Token) (options : QueryOptions) : List Token :=
  let f1 := match options.min_volume with
    | some v => if v = 0 then tokens else tokens.filter (fun t => v ≤ t.volume_sol)
    | none => tokens
  match options.min_liquidity with
  | some l => if l = 0 then f1 else f1.filter (fun t => l ≤ t.liquidity_sol)
  | none => f1

/-- Numeric sort key of a token under a sort field, from the `switch`
in `AggregationService.applySort` (`price_change` reads
`price_1hr_change || 0`, identity on our exact numbers). -/
def sortValue (sortBy : SortBy) (t : Token) : ℚ :=
  match sortBy with
  | .volume => t.volume_sol
  | .market_cap => t.market_cap_sol
  | .liquidity => t.liquidity_sol
  | .price_change => t.price_1hr_change

/-- `AggregationService.applySort`: stable sort by the projected key,
descending by default (JS `Array#sort` is stable; the comparator
returns `bValue - aValue` for `desc`, `aValue - bValue` for `asc`). -/
def applySort (tokens : List Token) (options : QueryOptions) : List Token :=
  let sortBy := options.sort_by.getD SortBy.volume
  let sortOrder := options.sort_order.getD SortOrder.desc
  match sortOrder with
  | .desc => tokens.mergeSort (fun a b => sortValue sortBy b ≤ sortValue sortBy a)
  | .asc => tokens.mergeSort (fun a b => sortValue sortBy a ≤ sortValue sortBy b)

/-- `ToIntegerOrInfinity` + index clamping of `Array.prototype.slice`
for one index argument: NaN (`none`) becomes 0, a negative index counts
from the end, and the result is clamped to `[0, len]`. -/
def jsSliceIndex (len : ℕ) (i : Option ℤ) : ℕ :=
  match i with
  | none => 0
  | some k => if k < 0 then ((len : ℤ) + k).toNat else min k.toNat len

/-- `tokens.slice(startIndex, endIndex)` with possibly-NaN indices. -/
def jsSlice (xs : List Token) (s e : Option ℤ) : List Token :=
  (xs.take (jsSliceIndex xs.length e)).drop (jsSliceIndex xs.length s)

/-- Effective page size: `Math.min(options.limit || defaultLimit,
maxLimit)`.  Note: no lower clamp exists in the code. -/
def effectiveLimit (options : QueryOptions) : ℤ :=
  min (jsOrInt options.limit paginationDefaultLimit) paginationMaxLimit

/-- Decoded start offset of `applyPagination`: 0 without a cursor (or
with the falsy empty-string cursor); otherwise
`parseInt(Buffer.from(cursor, 'base64').toString('utf-8'))`, whose NaN
outcome is `none`.  (`Buffer.from(s, 'base64')` never throws, so the
`catch` branch of the source is unreachable.) -/
def decodeStartIndex (options : QueryOptions) : Option ℤ :=
  match options.cursor with
  | none => some 0
  | some c =>
      if c = "" then some 0
      else jsParseInt (utf8Decode (nodeB64DecodeBytes c))

/-- Addition propagating NaN, for `endIndex = startIndex + limit`. -/
def jsAddInt (a : Option ℤ) (b : ℤ) : Option ℤ :=
  match a with
  | some x => some (x + b)
  | none => none

/-- `Buffer.from(n.toString()).toString('base64')`: base64 of the
decimal rendering (byte values are the ASCII codes of the digits). -/
def encodeCursor (e : ℤ) : String :=
  String.mk (b64EncodeBytes ((intToChars e).map Char.toNat))

/-- `AggregationService.applyPagination`.  `now` stands for the
`Date.now()` call that stamps the result. -/
def applyPagination (tokens : List Token) (options : QueryOptions) (now : ℚ) :
    TokenResponse :=
  let limit := effectiveLimit options
  let startIndex := decodeStartIndex options
  let endIndex := jsAddInt startIndex limit
  let paginatedTokens := jsSlice tokens startIndex endIndex
  let nextCursor : Option String :=
    match endIndex with
    | some e => if e < (tokens.length : ℤ) then some (encodeCursor e) else none
    | none => none
  { tokens := paginatedTokens
    next_cursor := nextCursor
    total_count := tokens.length
    timestamp := now }

/-- `':'.join`-style concatenation of `parts.join(':')`. -/
def joinColon : List (List Char) → List Char
  | [] => []
  | [p] => p
  | p :: ps => p ++ ':' :: joinColon ps

/-- Rendering of a sort key in the cache key. -/
def sortByChars (s : SortBy) : List Char :=
  match s with
  | .volume => "volume".data
  | .market_cap => "market_cap".data
  | .liquidity => "liquidity".data
  | .price_change => "price_change".data

/-- Rendering of a sort direction in the cache key. -/
def sortOrderChars (s : SortOrder) : List Char :=
  match s with
  | .asc => "asc".data
  | .desc => "desc".data

/-- `AggregationService.generateCacheKey`:
`[CACHE_KEY_PREFIX, 'aggregate', sort_by || 'volume', sort_order ||
'desc', min_volume || 0, min_liquidity || 0].join(':')`. -/
def generateCacheKey (options : QueryOptions) : String :=
  String.mk (joinColon
    ["tokens:".data,
     "aggregate".data,
     sortByChars (options.sort_by.getD SortBy.volume),
     sortOrderChars (options.sort_order.getD SortOrder.desc),
     ratChars (jsOrNum options.min_volume 0),
     ratChars (jsOrNum options.min_liquidity 0)])

/-- `AggregationService.aggregateTokens`, with its effects made
explicit: `cached` is the cache lookup's result, `dexResult` /
`jupiterResult` are the two adapters' settled outcomes
(`Promise.allSettled` captures a rejection instead of propagating it),
and `now` stamps the page.  A rejected adapter contributes no tokens. -/
def aggregateTokens (cached : Option TokenResponse)
    (dexResult jupiterResult : Except String (List Token))
    (options : QueryOptions) (now : ℚ) : TokenResponse :=
  match cached with
  | some c => c
  | none =>
      let allTokens :=
        (match dexResult with
          | .ok v => v
          | .error _ => []) ++
        (match jupiterResult with
          | .ok v => v
          | .error _ => [])
      let mergedTokens := mergeTokens allTokens
      let filteredTokens := applyFilters mergedTokens options
      let sortedTokens := applySort filteredTokens options
      applyPagination sortedTokens options now

/-! ## retryWithBackoff (src/utils/retry.ts) -/

/-- Retry policy, from `interface RetryConfig`.  `maxRetries` is a
natural number (the configuration fixes it at 3). -/
structure RetryConfig where
  maxRetries : ℕ
  initialDelay : ℚ
  maxDelay : ℚ
  backoffMultiplier : ℚ
deriving DecidableEq

/-- Failure raised by an attempted operation; `status` models
`error.response?.status`. -/
structure UpstreamError where
  status : Option ℤ
  msg : String
deriving DecidableEq

/-- The non-retryable test of `retryWithBackoff`:
`error.response?.status && [404, 401, 403].includes(...)` (a missing
or zero status is falsy, and 0 is not in the list anyway). -/
def nonRetryable (e : UpstreamError) : Bool :=
  match e.status with
  | some s => s = 404 ∨ s = 401 ∨ s = 403
  | none => false

/-- Backoff delay before retrying after attempt `i`:
`Math.min(initialDelay * backoffMultiplier ^ attempt, maxDelay)`. -/
def backoffDelay (cfg : RetryConfig) (i : ℕ) : ℚ :=
  min (cfg.initialDelay * cfg.backoffMultiplier ^ i) cfg.maxDelay

/-- Observable outcome of a `retryWithBackoff` run: the returned value
or re-raised error, how many attempts ran, and the sleeps performed. -/
structure RetryTrace (α : Type) where
  result : Except UpstreamError α
  attemptsMade : ℕ
  delays : List ℚ

/-- The attempt loop of `retryWithBackoff`, unrolled from attempt `i`
with `remaining` further attempts allowed after it.  `attempts j` is
the outcome the wrapped operation would produce on its `j`-th call. -/
def retryFrom {α : Type} (attempts : ℕ → Except UpstreamError α)
    (cfg : RetryConfig) (i : ℕ) : ℕ → RetryTrace α
  | 0 =>
      -- last allowed attempt: any failure is re-raised (a non-retryable
      -- one via the early `throw`, any other as `lastError` after the loop)
      { result := attempts i, attemptsMade := 1, delays := [] }
  | remaining + 1 =>
      match attempts i with
      | .ok v => { result := .ok v, attemptsMade := 1, delays := [] }
      | .error e =>
          if nonRetryable e then
            { result := .error e, attemptsMade := 1, delays := [] }
          else
            let t := retryFrom attempts cfg (i + 1) remaining
            { result := t.result
              attemptsMade := t.attemptsMade + 1
              delays := backoffDelay cfg i :: t.delays }

/-- `retryWithBackoff(fn, config)`: run the loop from attempt 0 with
`config.maxRetries` further attempts allowed. -/
def retryWithBackoff {α : Type} (attempts : ℕ → Except UpstreamError α)
    (cfg : RetryConfig) : RetryTrace α :=
  retryFrom attempts cfg 0 cfg.maxRetries

/-! ## RateLimiter (src/utils/retry.ts) -/

/-- Construction parameters of `RateLimiter`. -/
structure RLConfig where
  maxRequests : ℕ
  windowMs : ℤ
deriving DecidableEq

/-- Mutable state of a `RateLimiter`. -/
structure RLState where
  requestCount : ℕ
  windowStart : ℤ
deriving DecidableEq

/-- The lazy window reset at the top of `RateLimiter.acquire`: if the
current window has elapsed, reset the counter to 0 and the window
start to `now`. -/
def rlWindowReset (cfg : RLConfig) (s : RLState) (now : ℤ) : RLState :=
  if cfg.windowMs ≤ now - s.windowStart then
    { requestCount := 0, windowStart := now }
  else s

/-- The admission step of `RateLimiter.acquire` after the lazy reset:
under the limit, increment and return immediately; otherwise wait out
the window, then reset the counter to 1 and the window start to the
post-sleep clock reading. -/
def rlAdmit (cfg : RLConfig) (s1 : RLState) (afterSleep : ℤ) : RLState :=
  if s1.requestCount < cfg.maxRequests then
    { requestCount := s1.requestCount + 1, windowStart := s1.windowStart }
  else
    { requestCount := 1, windowStart := afterSleep }

/-- `RateLimiter.acquire`, with the two `Date.now()` readings made
explicit: `now` on entry and `afterSleep` after waiting out an
exhausted window. -/
def RateLimiter.acquire (cfg : RLConfig) (s : RLState) (now afterSleep : ℤ) :
    RLState :=
  rlAdmit cfg (rlWindowReset cfg s now) afterSleep

/-- A sequence of `acquire` calls, each with its pair of clock
readings. -/
def RateLimiter.runAcquires (cfg : RLConfig) (s : RLState)
    (calls : List (ℤ × ℤ)) : RLState :=
  calls.foldl (fun st c => RateLimiter.acquire cfg st c.1 c.2) s

/-! ## SocketManager.checkForUpdates (src/sockets/socketManager.ts) -/

/-- `Map.set(k, v)`: replace the value in place when the key exists,
append a new entry otherwise. -/
def jsMapSet : List (String × Token) → String → Token → List (String × Token)
  | [], k, t => [(k, t)]
  | (k', e) :: rest, k, t =>
      if k' = k then (k', t) :: rest else (k', e) :: jsMapSet rest k t

/-- `new Map(data.tokens.map(t => [t.token_address, t]))`: a JS `Map`
built from entries keeps one entry per key, at the key's first
insertion position, holding the last value set for it. -/
def jsMapOfTokens (ts : List Token) : List (String × Token) :=
  ts.foldl (fun m t => jsMapSet m t.token_address t) []

/-- Absolute percentage price change of the tick's diff:
`Math.abs((cur.price_sol - prev.price_sol) / prev.price_sol * 100)`.
With `prev.price_sol = 0`, IEEE division yields ±Infinity (compares
greater than 1) when the prices differ and NaN (every comparison
false) when both are 0; the zero case is modelled explicitly since ℚ
has no infinities. -/
def priceDeltaExceeds1 (prev cur : Token) : Bool :=
  if prev.price_sol = 0 then cur.price_sol ≠ 0
  else 1 < |((cur.price_sol - prev.price_sol) / prev.price_sol) * 100|

/-- Volume-spike test of the tick's diff:
`(cur.volume_sol - prev.volume_sol) / prev.volume_sol * 100 > 50`
(not wrapped in `Math.abs`).  The `prev.volume_sol = 0` IEEE cases are
modelled explicitly as for the price delta. -/
def volumeDeltaExceeds50 (prev cur : Token) : Bool :=
  if prev.volume_sol = 0 then 0 < cur.volume_sol
  else 50 < ((cur.volume_sol - prev.volume_sol) / prev.volume_sol) * 100

/-- The entries of the current snapshot that `checkForUpdates` pushes
into the tick's price-update batch: those whose address also has a
previous-snapshot entry and whose price delta exceeds 1%. -/
def priceUpdateEntries (current previous : List (String × Token)) :
    List (String × Token) :=
  current.filter (fun e =>
    match previous.lookup e.1 with
    | some prev => priceDeltaExceeds1 prev e.2
    | none => false)

/-- The `updates` batch broadcast as `price_updates` (the loop pushes
the current token of each qualifying entry, in map-iteration order). -/
def priceUpdateBatch (currentTokens : List Token)
    (previous : List (String × Token)) : List Token :=
  (priceUpdateEntries (jsMapOfTokens currentTokens) previous).map Prod.snd

/-! ## Spec-side field combinators (for the merge-rule claim)

These four definitions follow the specification's words — "identity
fields keep the first non-empty / non-'Unknown' value encountered" —
with the field's notion of an empty value: the empty string, zero, an
absent value, or the `"Unknown"` sentinel of the protocol label. -/

/-- First non-empty string, in encounter order. -/
def firstNonEmpty (a b : String) : String :=
  if a = "" then b else a

/-- First present, non-empty optional string. -/
def firstNonEmptyOpt (a b : Option String) : Option String :=
  match a with
  | some s => if s = "" then b else some s
  | none => b

/-- First non-zero number, in encounter order. -/
def firstNonzero (a b : ℚ) : ℚ :=
  if a = 0 then b else a

/-- First present, non-zero optional number. -/
def firstNonzeroOpt (a b : Option ℚ) : Option ℚ :=
  match a with
  | some x => if x = 0 then b else some x
  | none => b

/-- First protocol label that is not the `"Unknown"` sentinel. -/
def firstNonUnknown (a b : String) : String :=
  if a = "Unknown" then b else a

/-! ## Concrete records for witnesses and counterexamples -/

/-- A concrete token record. -/
def demoToken : Token :=
  { token_address := "So1abc"
    token_name := "Demo"
    token_ticker := "DMO"
    price_sol := 1
    market_cap_sol := 100
    volume_sol := 500
    liquidity_sol := 200
    transaction_count := 10
    price_1hr_change := 5
    price_24hr_change := none
    price_7d_change := none
    protocol := "Raydium"
    dex_id := some "raydium"
    last_updated := 1000 }

/-- A second record for the same asset from another source: same
address up to case, sparser identity data, larger volume. -/
def demoTokenB : Token :=
  { token_address := "SO1ABC"
    token_name := ""
    token_ticker := "DM2"
    price_sol := 2
    market_cap_sol := 300
    volume_sol := 900
    liquidity_sol := 50
    transaction_count := 40
    price_1hr_change := 0
    price_24hr_change := some 7
    price_7d_change := none
    protocol := "Unknown"
    dex_id := none
    last_updated := 2000 }

/-- Previous-snapshot record with price 1.0. -/
def prevTick : Token :=
  { demoToken with price_sol := 1 }

/-- Current-snapshot record whose price moved to 1.02 (a 2% change). -/
def curTick102 : Token :=
  { demoToken with price_sol := 1.02 }

/-- Current-snapshot record whose price moved to 1.005 (a 0.5% change). -/
def curTick1005 : Token :=
  { demoToken with price_sol := 1.005 }

/-! # Theorems -/

/-! ## C1: the pairwise merge rule -/

/-- C1: merging two Token records sharing an address yields the maximum
of the two values for market cap, volume, liquidity, transaction count
and last-updated, and keeps, for each identity field (name, ticker,
price, per-period % changes, source-protocol label, dex identifier),
the first non-empty (resp. non-"Unknown", for the protocol label)
value in the order the records were encountered. -/
theorem mergeSingleToken_max_and_first (t1 t2 : Token)
    (_h : jsToLower t1.token_address = jsToLower t2.token_address) :
    mergeSingleToken t1 t2 =
      { token_address := t1.token_address
        token_name := firstNonEmpty t1.token_name t2.token_name
        token_ticker := firstNonEmpty t1.token_ticker t2.token_ticker
        price_sol := firstNonzero t1.price_sol t2.price_sol
        market_cap_sol := max t1.market_cap_sol t2.market_cap_sol
        volume_sol := max t1.volume_sol t2.volume_sol
        liquidity_sol := max t1.liquidity_sol t2.liquidity_sol
        transaction_count := max t1.transaction_count t2.transaction_count
        price_1hr_change := firstNonzero t1.price_1hr_change t2.price_1hr_change
        price_24hr_change := firstNonzeroOpt t1.price_24hr_change t2.price_24hr_change
        price_7d_change := firstNonzeroOpt t1.price_7d_change t2.price_7d_change
        protocol := firstNonUnknown t1.protocol t2.protocol
        dex_id := firstNonEmptyOpt t1.dex_id t2.dex_id
        last_updated := max t1.last_updated t2.last_updated } := by
  unfold mergeSingleToken firstNonEmpty firstNonEmptyOpt firstNonzero
    firstNonzeroOpt firstNonUnknown jsOrStr jsOrNumNum jsOrOptNum jsOrOptStr
  by_cases hp : t1.protocol = "Unknown" <;> simp [hp]

/-- C1 witness: the merge rule at two concrete records of one asset. -/
theorem mergeSingleToken_max_and_first_witness :
    mergeSingleToken demoToken demoTokenB =
      { token_address := demoToken.token_address
        token_name := firstNonEmpty demoToken.token_name demoTokenB.token_name
        token_ticker := firstNonEmpty demoToken.token_ticker demoTokenB.token_ticker
        price_sol := firstNonzero demoToken.price_sol demoTokenB.price_sol
        market_cap_sol := max demoToken.market_cap_sol demoTokenB.market_cap_sol
        volume_sol := max demoToken.volume_sol demoTokenB.volume_sol
        liquidity_sol := max demoToken.liquidity_sol demoTokenB.liquidity_sol
        transaction_count := max demoToken.transaction_count demoTokenB.transaction_count
        price_1hr_change := firstNonzero demoToken.price_1hr_change demoTokenB.price_1hr_change
        price_24hr_change := firstNonzeroOpt demoToken.price_24hr_change demoTokenB.price_24hr_change
        price_7d_change := firstNonzeroOpt demoToken.price_7d_change demoTokenB.price_7d_change
        protocol := firstNonUnknown demoToken.protocol demoTokenB.protocol
        dex_id := firstNonEmptyOpt demoToken.dex_id demoTokenB.dex_id
        last_updated := max demoToken.last_updated demoTokenB.last_updated } :=
  mergeSingleToken_max_and_first demoToken demoTokenB (by decide)

/-! ## C6: partial-source-failure resilience -/

/-- C6: when one adapter rejects and the other fulfills,
`aggregateTokens` (on a cache miss) returns the merged / filtered /
sorted / paginated result built from the successful adapter's records
alone; the rejection is captured by the settled-outcome inputs, so the
aggregate itself never raises. -/
theorem aggregateTokens_partial_failure (e : String) (ts : List Token)
    (options : QueryOptions) (now : ℚ) :
    aggregateTokens none (.error e) (.ok ts) options now =
        applyPagination (applySort (applyFilters (mergeTokens ts) options) options)
          options now ∧
      aggregateTokens none (.ok ts) (.error e) options now =
        applyPagination (applySort (applyFilters (mergeTokens ts) options) options)
          options now := by
  constructor
  · rfl
  · simp [aggregateTokens]

/-! ## C2: malformed-cursor pagination -/

/-- C2 counterexample: with a well-formed base64 cursor whose decoded
text (`"*"`) fails integer parsing, the page is NOT computed as if the
offset were 0 — it comes back empty, while the no-cursor page holds
the collection's first record. -/
theorem applyPagination_bad_cursor_not_offset0 :
    applyPagination [demoToken] { cursor := some "Kg==" } 0 ≠
        applyPagination [demoToken] {} 0 ∧
      (applyPagination [demoToken] { cursor := some "Kg==" } 0).tokens = [] ∧
      (applyPagination [demoToken] {} 0).tokens = [demoToken] := by
  decide

/-- C2 (amended): pagination never fails on a malformed cursor (base64
decoding and `parseInt` are total), but a cursor whose decoded text
does not parse as an integer yields a NaN offset, so the returned page
is empty — `slice(NaN, NaN) = slice(0, 0)` — with no next cursor and
with `total_count` still the full collection size; the page is not the
offset-0 page. -/
theorem applyPagination_nan_cursor (tokens : List Token)
    (options : QueryOptions) (now : ℚ) (c : String)
    (hc : options.cursor = some c) (hne : c ≠ "")
    (hnan : jsParseInt (utf8Decode (nodeB64DecodeBytes c)) = none) :
    applyPagination tokens options now =
      { tokens := [], next_cursor := none, total_count := tokens.length,
        timestamp := now } := by
  unfold applyPagination decodeStartIndex
  rw [hc]
  simp [hne, hnan, jsAddInt, jsSlice, jsSliceIndex]

/-- C2 witness: the amended statement at a concrete collection and the
concrete malformed cursor `"Kg=="`. -/
theorem applyPagination_nan_cursor_witness :
    applyPagination [demoToken] { cursor := some "Kg==" } 0 =
      { tokens := [], next_cursor := none, total_count := 1, timestamp := 0 } :=
  applyPagination_nan_cursor [demoToken] { cursor := some "Kg==" } 0 "Kg=="
    rfl (by decide) (by decide)

/-! ## C3: the effective page size -/

/-- C3 counterexample: the effective limit is NOT clamped below — a
requested limit of −5 passes through `Math.min` unchanged, is less
than 1, and produces an empty page over a non-empty collection at
offset 0. -/
theorem effectiveLimit_no_lower_clamp :
    effectiveLimit { limit := some (-5) } = -5 ∧
      ¬ 1 ≤ effectiveLimit { limit := some (-5) } ∧
      (applyPagination [demoToken] { limit := some (-5) } 0).tokens = [] := by
  refine ⟨by decide, by decide, ?_⟩
  decide

/-- C3 (amended): the effective page size is
`min(requested-or-default, maxLimit)`: it never exceeds the configured
maximum, and it is at least 1 whenever the requested limit is absent,
zero (both replaced by the default of 20) or itself at least 1 — in
those cases a page over a non-empty collection starting at a valid
decoded offset contains at least one record.  A negative requested
limit, however, is not clamped to 1. -/
theorem effectiveLimit_upper_clamp_and_nonempty_page (options : QueryOptions) :
    effectiveLimit options ≤ paginationMaxLimit ∧
      ((options.limit = none ∨ options.limit = some 0 ∨
          (∃ l, options.limit = some l ∧ 1 ≤ l)) → 1 ≤ effectiveLimit options) ∧
      (∀ (tokens : List Token) (now : ℚ) (s : ℤ),
        1 ≤ effectiveLimit options → decodeStartIndex options = some s →
        0 ≤ s → s < (tokens.length : ℤ) →
        (applyPagination tokens options now).tokens ≠ []) := by
  refine ⟨min_le_right _ _, ?_, ?_⟩
  · rintro (h | h | ⟨l, hl, h1⟩)
    · simp [effectiveLimit, jsOrInt, h, paginationDefaultLimit, paginationMaxLimit]
    · simp [effectiveLimit, jsOrInt, h, paginationDefaultLimit, paginationMaxLimit]
    · have hl0 : l ≠ 0 := by omega
      simp only [effectiveLimit, jsOrInt, hl, hl0, if_false]
      exact le_min h1 (by norm_num [paginationMaxLimit])
  · intro tokens now s hlim hdec hs0 hslt
    unfold applyPagination
    simp only [hdec]
    have hstart : jsSliceIndex tokens.length (some s) = s.toNat := by
      simp only [jsSliceIndex]
      rw [if_neg (by omega)]
      exact min_eq_left (by omega)
    have hend : s.toNat < jsSliceIndex tokens.length (some (s + effectiveLimit options)) ∧
        jsSliceIndex tokens.length (some (s + effectiveLimit options)) ≤ tokens.length := by
      simp only [jsSliceIndex]
      rw [if_neg (by omega)]
      rcases le_total (s + effectiveLimit options).toNat tokens.length with hle | hle
      · rw [min_eq_left hle]
        omega
      · rw [min_eq_right hle]
        omega
    apply List.ne_nil_of_length_pos
    simp only [jsAddInt, jsSlice, hstart, List.length_drop, List.length_take]
    omega

/-- C3 witness: with default options, the page over a one-record
collection is non-empty and the effective limit respects the maximum. -/
theorem effectiveLimit_upper_clamp_and_nonempty_page_witness :
    (applyPagination [demoToken] {} 0).tokens ≠ [] ∧
      effectiveLimit {} ≤ paginationMaxLimit :=
  ⟨(effectiveLimit_upper_clamp_and_nonempty_page {}).2.2 [demoToken] 0 0
      (by decide) rfl (by decide) (by decide),
    (effectiveLimit_upper_clamp_and_nonempty_page {}).1⟩

/-! ## C10: the rate-limiter counter bound -/

/-- Sequential bound for `runAcquires`, by induction on the calls. -/
theorem runAcquires_requestCount_le (cfg : RLConfig) (hmax : 1 ≤ cfg.maxRequests) :
    ∀ (calls : List (ℤ × ℤ)) (s : RLState), s.requestCount ≤ cfg.maxRequests →
      (RateLimiter.runAcquires cfg s calls).requestCount ≤ cfg.maxRequests := by
  intro calls
  induction calls with
  | nil => intro s hs; exact hs
  | cons c rest ih =>
      intro s _
      refine ih (RateLimiter.acquire cfg s c.1 c.2) ?_
      unfold RateLimiter.acquire rlAdmit
      split
      · next hlt => exact hlt
      · exact hmax

/-- C10 (implicit): with `maxRequests ≥ 1`, the counter never exceeds
`maxRequests` after any completed `acquire` of any call sequence, and
each `acquire` either leaves the counter at 1 (fresh or waited-out
window) or increments the post-reset counter only when it is strictly
below `maxRequests`. -/
theorem rateLimiter_counter_bound (cfg : RLConfig) (hmax : 1 ≤ cfg.maxRequests) :
    (∀ (s : RLState) (now afterSleep : ℤ),
      (RateLimiter.acquire cfg s now afterSleep).requestCount ≤ cfg.maxRequests ∧
        ((RateLimiter.acquire cfg s now afterSleep).requestCount = 1 ∨
          ((rlWindowReset cfg s now).requestCount < cfg.maxRequests ∧
            (RateLimiter.acquire cfg s now afterSleep).requestCount =
              (rlWindowReset cfg s now).requestCount + 1))) ∧
      (∀ (t0 : ℤ) (calls : List (ℤ × ℤ)),
        (RateLimiter.runAcquires cfg { requestCount := 0, windowStart := t0 }
            calls).requestCount ≤ cfg.maxRequests) := by
  constructor
  · intro s now afterSleep
    unfold RateLimiter.acquire rlAdmit
    constructor
    · split
      · next hlt => exact hlt
      · exact hmax
    · split
      · next hlt => exact Or.inr ⟨hlt, rfl⟩
      · exact Or.inl rfl
  · intro t0 calls
    exact runAcquires_requestCount_le cfg hmax calls _ (Nat.zero_le _)

/-- C10 witness: the bound at a concrete limiter with `maxRequests = 1`
and a concrete two-call sequence. -/
theorem rateLimiter_counter_bound_witness :
    (RateLimiter.acquire { maxRequests := 1, windowMs := 60000 }
        { requestCount := 0, windowStart := 0 } 0 0).requestCount ≤ 1 ∧
      (RateLimiter.runAcquires { maxRequests := 1, windowMs := 60000 }
          { requestCount := 0, windowStart := 0 } [(0, 0), (1, 1)]).requestCount ≤ 1 :=
  ⟨((rateLimiter_counter_bound { maxRequests := 1, windowMs := 60000 }
        (by decide)).1 { requestCount := 0, windowStart := 0 } 0 0).1,
    (rateLimiter_counter_bound { maxRequests := 1, windowMs := 60000 }
        (by decide)).2 0 [(0, 0), (1, 1)]⟩

/-! ## C8: pagination round trip -/

/-- The next cursor produced by the first page of a 2-element
collection at limit 1 is the base64 encoding of `"1"`. -/
theorem encodeCursor_one : encodeCursor 1 = "MQ==" := by
  simp [encodeCursor, intToChars, natToChars, digitChar48]
  decide

/-- C8: over any 2-element sorted collection, limit 1 with no cursor
returns exactly the first element plus a next cursor, and supplying
that cursor with limit 1 returns exactly the second element with no
further cursor; both pages report `total_count = 2`. -/
theorem applyPagination_two_element_roundtrip (a b : Token) (n1 n2 : ℚ) :
    applyPagination [a, b] { limit := some 1 } n1 =
        { tokens := [a], next_cursor := some "MQ==", total_count := 2,
          timestamp := n1 } ∧
      applyPagination [a, b] { limit := some 1, cursor := some "MQ==" } n2 =
        { tokens := [b], next_cursor := none, total_count := 2,
          timestamp := n2 } := by
  constructor
  · unfold applyPagination
    refine congrArg (fun c => TokenResponse.mk _ c _ _) ?_
    rw [show jsAddInt (decodeStartIndex { limit := some 1 }) (effectiveLimit { limit := some 1 }) = some 1 from rfl]
    simp [encodeCursor_one]
  · rfl

/-! ## C7: the price-update batch threshold -/

/-- Membership from lookup in an association list: a looked-up
key-value pair is an entry. -/
theorem lookup_mem_assoc : ∀ (m : List (String × Token)) (k : String) (v : Token),
    m.lookup k = some v → (k, v) ∈ m := by
  intro m
  induction m with
  | nil => intro k v h; simp [List.lookup] at h
  | cons p rest ih =>
      intro k v h
      by_cases hk : k = p.1
      · simp [List.lookup, hk] at h
        subst hk
        rw [← h]
        exact List.mem_cons_self _ _
      · have hb : (k == p.1) = false := beq_eq_false_iff_ne.mpr hk
        simp only [List.lookup, hb] at h
        exact List.mem_cons_of_mem _ (ih k v h)

/-- C7: on a Diff Broadcaster tick, a token whose address is present in
both the new snapshot (with record `t`) and the previous snapshot (with
record `p`, of positive price) enters the tick's price-update batch if
and only if `|new.price − prev.price| / prev.price · 100` exceeds 1. -/
theorem priceUpdateEntries_iff_delta (current : List Token)
    (previous : List (String × Token)) (addr : String) (t p : Token)
    (hcur : (jsMapOfTokens current).lookup addr = some t)
    (hprev : previous.lookup addr = some p)
    (hp : 0 < p.price_sol) :
    (addr, t) ∈ priceUpdateEntries (jsMapOfTokens current) previous ↔
      1 < |(t.price_sol - p.price_sol) / p.price_sol * 100| := by
  unfold priceUpdateEntries
  rw [List.mem_filter]
  constructor
  · rintro ⟨-, hpred⟩
    simp only [hprev] at hpred
    simpa [priceDeltaExceeds1, hp.ne'] using hpred
  · intro hdelta
    refine ⟨lookup_mem_assoc _ _ _ hcur, ?_⟩
    simp only [hprev]
    simpa [priceDeltaExceeds1, hp.ne'] using hdelta

/-- C7 witness: a price move from 1.0 to 1.02 (2%) is batched, a move
from 1.0 to 1.005 (0.5%) is not. -/
theorem priceUpdateEntries_iff_delta_witness :
    ("So1abc", curTick102) ∈
        priceUpdateEntries (jsMapOfTokens [curTick102]) [("So1abc", prevTick)] ∧
      ("So1abc", curTick1005) ∉
        priceUpdateEntries (jsMapOfTokens [curTick1005]) [("So1abc", prevTick)] :=
  ⟨(priceUpdateEntries_iff_delta [curTick102] [("So1abc", prevTick)] "So1abc"
        curTick102 prevTick rfl rfl (by decide)).mpr
      (by norm_num [curTick102, prevTick, demoToken]),
    fun h => absurd
      ((priceUpdateEntries_iff_delta [curTick1005] [("So1abc", prevTick)] "So1abc"
          curTick1005 prevTick rfl rfl (by decide)).mp h)
      (by rw [not_lt, abs_le]; norm_num [curTick1005, prevTick, demoToken])⟩

/-! ## C4: cache-key derivation

The key is a `':'`-joined rendering of the four defaulted option
fields.  Injectivity in the defaulted fields follows from the digits
round-trip of the decimal rendering and a split lemma for the
separator. -/

/-- Digit characters are digits. -/
theorem digitChar48_isDigit : ∀ n, n < 10 → (digitChar48 n).isDigit = true := by
  decide

/-- Code point of a digit character. -/
theorem digitChar48_toNat : ∀ n, n < 10 → (digitChar48 n).toNat = 48 + n := by
  decide

/-- Every character of a decimal rendering is a digit. -/
theorem natToChars_isDigit (n : ℕ) : ∀ c ∈ natToChars n, c.isDigit = true := by
  induction n using Nat.strong_induction_on with
  | _ n ih =>
      intro c hc
      rw [natToChars] at hc
      split at hc
      · next h =>
          simp only [List.mem_singleton] at hc
          exact hc ▸ digitChar48_isDigit n h
      · next h =>
          rcases List.mem_append.mp hc with hl | hr
          · exact ih (n / 10) (Nat.div_lt_self (by omega) (by omega)) c hl
          · simp only [List.mem_singleton] at hr
            exact hr ▸ digitChar48_isDigit (n % 10) (Nat.mod_lt _ (by omega))

/-- A decimal rendering is never empty. -/
theorem natToChars_ne_nil (n : ℕ) : natToChars n ≠ [] := by
  rw [natToChars]
  split <;> simp

/-- Folding a digit onto the end of a digit string. -/
theorem digitsVal_append (xs : List Char) (c : Char) :
    digitsVal (xs ++ [c]) = digitsVal xs * 10 + (c.toNat - 48) := by
  simp [digitsVal, List.foldl_append]

/-- The decimal rendering parses back to its number. -/
theorem digitsVal_natToChars (n : ℕ) : digitsVal (natToChars n) = n := by
  induction n using Nat.strong_induction_on with
  | _ n ih =>
      rw [natToChars]
      split
      · next h =>
          simp [digitsVal, digitChar48_toNat n h]
      · next h =>
          rw [digitsVal_append, ih (n / 10) (Nat.div_lt_self (by omega) (by omega)),
            digitChar48_toNat (n % 10) (Nat.mod_lt _ (by omega))]
          omega

/-- The decimal rendering of naturals is injective. -/
theorem natToChars_inj {a b : ℕ} (h : natToChars a = natToChars b) : a = b := by
  have ha := digitsVal_natToChars a
  rw [h, digitsVal_natToChars b] at ha
  exact ha.symm

/-- Every character of a signed rendering is a digit or the minus sign. -/
theorem intToChars_class (z : ℤ) :
    ∀ c ∈ intToChars z, c.isDigit = true ∨ c = '-' := by
  intro c hc
  unfold intToChars at hc
  split at hc
  · rcases List.mem_cons.mp hc with h | h
    · exact Or.inr h
    · exact Or.inl (natToChars_isDigit _ c h)
  · exact Or.inl (natToChars_isDigit _ c hc)

/-- The signed decimal rendering of integers is injective. -/
theorem intToChars_inj {a b : ℤ} (h : intToChars a = intToChars b) : a = b := by
  unfold intToChars at h
  split at h <;> split at h
  · next ha hb =>
      injection h with _ h2
      have := natToChars_inj h2
      omega
  · next ha hb =>
      exfalso
      have hm : '-' ∈ natToChars b.toNat := h ▸ List.mem_cons_self _ _
      have := natToChars_isDigit b.toNat '-' hm
      simp at this
  · next ha hb =>
      exfalso
      have hm : '-' ∈ natToChars a.toNat := h.symm ▸ List.mem_cons_self _ _
      have := natToChars_isDigit a.toNat '-' hm
      simp at this
  · next ha hb =>
      have := natToChars_inj h
      omega

/-- Every character of a number rendering is a digit, `'-'` or `'/'`. -/
theorem ratChars_class (q : ℚ) :
    ∀ c ∈ ratChars q, c.isDigit = true ∨ c = '-' ∨ c = '/' := by
  intro c hc
  unfold ratChars at hc
  split at hc
  · rcases intToChars_class q.num c hc with h | h
    · exact Or.inl h
    · exact Or.inr (Or.inl h)
  · rcases List.mem_append.mp hc with h | h
    · rcases intToChars_class q.num c h with h' | h'
      · exact Or.inl h'
      · exact Or.inr (Or.inl h')
    · rcases List.mem_cons.mp h with h' | h'
      · exact Or.inr (Or.inr h')
      · exact Or.inl (natToChars_isDigit _ c h')

/-- The slash never occurs in a signed integer rendering. -/
theorem slash_not_mem_intToChars (z : ℤ) : '/' ∉ intToChars z := by
  intro hm
  rcases intToChars_class z '/' hm with h | h <;> simp at h

/-- The colon never occurs in a number rendering. -/
theorem colon_not_mem_ratChars (q : ℚ) : ':' ∉ ratChars q := by
  intro hm
  rcases ratChars_class q ':' hm with h | h | h <;> simp at h

/-- Splitting a concatenation at a separator absent from both left
parts determines the parts. -/
theorem append_sep_inj (sep : Char) :
    ∀ (a c b d : List Char), sep ∉ a → sep ∉ c →
      a ++ sep :: b = c ++ sep :: d → a = c ∧ b = d := by
  intro a
  induction a with
  | nil =>
      intro c b d _ hc h
      cases c with
      | nil => simpa using h
      | cons x xs =>
          simp only [List.nil_append, List.cons_append] at h
          injection h with h1 h2
          exact absurd (h1 ▸ List.mem_cons_self x xs) hc
  | cons y ys ih =>
      intro c b d ha hc h
      cases c with
      | nil =>
          simp only [List.cons_append, List.nil_append] at h
          injection h with h1 h2
          exact absurd (h1 ▸ List.mem_cons_self y ys) ha
      | cons x xs =>
          simp only [List.cons_append] at h
          injection h with h1 h2
          have hr := ih xs b d (fun hm => ha (List.mem_cons_of_mem _ hm))
            (fun hm => hc (List.mem_cons_of_mem _ hm)) h2
          exact ⟨by rw [h1, hr.1], hr.2⟩

/-- The exact number rendering is injective. -/
theorem ratChars_inj {p q : ℚ} (h : ratChars p = ratChars q) : p = q := by
  unfold ratChars at h
  split at h <;> split at h
  · next hp hq =>
      have hnum := intToChars_inj h
      exact Rat.ext hnum (hp.trans hq.symm)
  · next hp hq =>
      exfalso
      have hm : '/' ∈ intToChars p.num := by
        rw [h]
        exact List.mem_append.mpr (Or.inr (List.mem_cons_self _ _))
      exact slash_not_mem_intToChars p.num hm
  · next hp hq =>
      exfalso
      have hm : '/' ∈ intToChars q.num := by
        rw [← h]
        exact List.mem_append.mpr (Or.inr (List.mem_cons_self _ _))
      exact slash_not_mem_intToChars q.num hm
  · next hp hq =>
      have := append_sep_inj '/' (intToChars p.num) (intToChars q.num) _ _
        (slash_not_mem_intToChars p.num) (slash_not_mem_intToChars q.num) h
      exact Rat.ext (intToChars_inj this.1) (natToChars_inj this.2)

/-- The colon never occurs in a sort-key rendering. -/
theorem colon_not_mem_sortByChars : ∀ s : SortBy, ':' ∉ sortByChars s := by
  intro s
  cases s <;> decide

/-- The sort-key rendering is injective. -/
theorem sortByChars_inj : ∀ s1 s2 : SortBy, sortByChars s1 = sortByChars s2 → s1 = s2 := by
  intro s1 s2
  cases s1 <;> cases s2 <;> decide

/-- The colon never occurs in a sort-direction rendering. -/
theorem colon_not_mem_sortOrderChars : ∀ s : SortOrder, ':' ∉ sortOrderChars s := by
  intro s
  cases s <;> decide

/-- The sort-direction rendering is injective. -/
theorem sortOrderChars_inj :
    ∀ s1 s2 : SortOrder, sortOrderChars s1 = sortOrderChars s2 → s1 = s2 := by
  intro s1 s2
  cases s1 <;> cases s2 <;> decide

/-- C4 counterexample: two option sets differing on `min_volume`
(absent versus an explicit 0) produce the SAME cache key, because the
key renders `min_volume || 0`; likewise the defaulting erases
absent-versus-default differences of the other three fields. -/
theorem generateCacheKey_default_collision :
    generateCacheKey {} = generateCacheKey { min_volume := some 0 } ∧
      ({} : QueryOptions).min_volume ≠
        ({ min_volume := some 0 } : QueryOptions).min_volume := by
  constructor
  · rfl
  · decide

/-- C4 (amended): the cache key is a deterministic function of exactly
the four defaulted fields — `sort_by` defaulted to `volume`,
`sort_order` defaulted to `desc`, and each threshold defaulted to 0
with an explicit 0 treated as absent: two option sets produce the same
key (regardless of `limit` and `cursor`) if and only if they agree on
all four defaulted fields.  Differing on a field produces different
keys only when the difference survives the defaulting. -/
theorem generateCacheKey_eq_iff (o1 o2 : QueryOptions) :
    generateCacheKey o1 = generateCacheKey o2 ↔
      (o1.sort_by.getD SortBy.volume = o2.sort_by.getD SortBy.volume ∧
        o1.sort_order.getD SortOrder.desc = o2.sort_order.getD SortOrder.desc ∧
        jsOrNum o1.min_volume 0 = jsOrNum o2.min_volume 0 ∧
        jsOrNum o1.min_liquidity 0 = jsOrNum o2.min_liquidity 0) := by
  constructor
  · intro h
    have hdata : joinColon
        ["tokens:".data, "aggregate".data,
          sortByChars (o1.sort_by.getD SortBy.volume),
          sortOrderChars (o1.sort_order.getD SortOrder.desc),
          ratChars (jsOrNum o1.min_volume 0),
          ratChars (jsOrNum o1.min_liquidity 0)] =
        joinColon
          ["tokens:".data, "aggregate".data,
            sortByChars (o2.sort_by.getD SortBy.volume),
            sortOrderChars (o2.sort_order.getD SortOrder.desc),
            ratChars (jsOrNum o2.min_volume 0),
            ratChars (jsOrNum o2.min_liquidity 0)] :=
      congrArg String.data h
    simp only [joinColon] at hdata
    have h1 := List.append_cancel_left hdata
    injection h1 with _ h2
    have h3 := List.append_cancel_left h2
    injection h3 with _ h4
    obtain ⟨hsb, h5⟩ := append_sep_inj ':' _ _ _ _
      (colon_not_mem_sortByChars _) (colon_not_mem_sortByChars _) h4
    obtain ⟨hso, h6⟩ := append_sep_inj ':' _ _ _ _
      (colon_not_mem_sortOrderChars _) (colon_not_mem_sortOrderChars _) h5
    obtain ⟨hv, hl⟩ := append_sep_inj ':' _ _ _ _
      (colon_not_mem_ratChars _) (colon_not_mem_ratChars _) h6
    exact ⟨sortByChars_inj _ _ hsb, sortOrderChars_inj _ _ hso,
      ratChars_inj hv, ratChars_inj hl⟩
  · rintro ⟨h1, h2, h3, h4⟩
    unfold generateCacheKey
    rw [h1, h2, h3, h4]

/-- C4 witness: the defaulted-field criterion at concrete option sets —
the same filters under different limit and cursor give equal keys, and
a changed `min_volume` gives a different key. -/
theorem generateCacheKey_eq_iff_witness :
    generateCacheKey { limit := some 5, cursor := some "MQ==", min_volume := some 7 } =
        generateCacheKey { limit := some 50, min_volume := some 7 } ∧
      generateCacheKey { min_volume := some 7 } ≠ generateCacheKey { min_volume := some 8 } :=
  ⟨(generateCacheKey_eq_iff
        { limit := some 5, cursor := some "MQ==", min_volume := some 7 }
        { limit := some 50, min_volume := some 7 }).mpr
      (by refine ⟨rfl, rfl, ?_, rfl⟩; decide),
    fun h => by
      have := ((generateCacheKey_eq_iff
        { min_volume := some 7 } { min_volume := some 8 }).mp h).2.2.1
      simp [jsOrNum] at this⟩

/-! ## C9: merge-map invariants -/

/-- Updating a present key leaves the key list unchanged. -/
theorem setMerge_keys_mem : ∀ (m : List (String × Token)) (k : String) (t : Token),
    k ∈ m.map Prod.fst → (setMerge m k t).map Prod.fst = m.map Prod.fst := by
  intro m
  induction m with
  | nil => intro k t h; simp at h
  | cons p rest ih =>
      intro k t h
      unfold setMerge
      by_cases hk : p.1 = k
      · simp [hk]
      · simp only [List.map_cons] at h
        rcases List.mem_cons.mp h with h1 | h2
        · exact absurd h1.symm hk
        · simp [hk, ih k t h2]

/-- Inserting an absent key appends it to the key list. -/
theorem setMerge_keys_not_mem : ∀ (m : List (String × Token)) (k : String) (t : Token),
    k ∉ m.map Prod.fst → (setMerge m k t).map Prod.fst = m.map Prod.fst ++ [k] := by
  intro m
  induction m with
  | nil => intro k t _; simp [setMerge]
  | cons p rest ih =>
      intro k t h
      simp only [List.map_cons, List.mem_cons] at h
      push_neg at h
      have hne : ¬ p.1 = k := fun he => h.1 he.symm
      unfold setMerge
      simp [hne, ih k t h.2]

/-- One map update grows the entry list by at most one. -/
theorem setMerge_length : ∀ (m : List (String × Token)) (k : String) (t : Token),
    (setMerge m k t).length ≤ m.length + 1 := by
  intro m
  induction m with
  | nil => intro k t; simp [setMerge]
  | cons p rest ih =>
      intro k t
      unfold setMerge
      by_cases hk : p.1 = k
      · simp [hk]
      · simpa [hk] using ih k t

/-- Looking up the updated key after inserting it fresh. -/
theorem setMerge_lookup_none : ∀ (m : List (String × Token)) (k : String) (t : Token),
    m.lookup k = none → (setMerge m k t).lookup k = some t := by
  intro m
  induction m with
  | nil => intro k t _; simp [setMerge, List.lookup]
  | cons p rest ih =>
      intro k t h
      by_cases hk : k = p.1
      · simp [List.lookup, hk] at h
      · have hb : (k == p.1) = false := beq_eq_false_iff_ne.mpr hk
        have hne : ¬ p.1 = k := fun he => hk he.symm
        simp only [List.lookup, hb] at h
        unfold setMerge
        simp only [hne, if_false]
        simp only [List.lookup, hb]
        exact ih k t h

/-- Looking up the updated key after merging into an existing entry. -/
theorem setMerge_lookup_some : ∀ (m : List (String × Token)) (k : String) (t e : Token),
    m.lookup k = some e → (setMerge m k t).lookup k = some (mergeSingleToken e t) := by
  intro m
  induction m with
  | nil => intro k t e h; simp [List.lookup] at h
  | cons p rest ih =>
      intro k t e h
      by_cases hk : k = p.1
      · simp only [List.lookup, hk, beq_self_eq_true] at h
        unfold setMerge
        simp only [hk, if_true, List.lookup, beq_self_eq_true]
        simp at h
        rw [h]
      · have hb : (k == p.1) = false := beq_eq_false_iff_ne.mpr hk
        have hne : ¬ p.1 = k := fun he => hk he.symm
        simp only [List.lookup, hb] at h
        unfold setMerge
        simp only [hne, if_false]
        simp only [List.lookup, hb]
        exact ih k t e h

/-- Updates do not disturb other keys. -/
theorem setMerge_lookup_ne : ∀ (m : List (String × Token)) (k k' : String) (t : Token),
    k' ≠ k → (setMerge m k t).lookup k' = m.lookup k' := by
  intro m
  induction m with
  | nil =>
      intro k k' t h
      simp [setMerge, List.lookup, beq_eq_false_iff_ne.mpr h]
  | cons p rest ih =>
      intro k k' t h
      unfold setMerge
      by_cases hk : p.1 = k
      · subst hk
        have hb : (k' == p.1) = false := beq_eq_false_iff_ne.mpr h
        simp only [if_pos rfl, List.lookup, hb]
      · simp only [hk, if_false, List.lookup]
        cases hbeq : k' == p.1
        · exact ih k k' t h
        · rfl

/-- Membership to lookup, for an association list with distinct keys. -/
theorem mem_lookup_assoc : ∀ (m : List (String × Token)),
    (m.map Prod.fst).Nodup → ∀ (k : String) (v : Token),
      (k, v) ∈ m → m.lookup k = some v := by
  intro m
  induction m with
  | nil => intro _ k v h; simp at h
  | cons p rest ih =>
      intro hnd k v h
      simp only [List.map_cons, List.nodup_cons] at hnd
      rcases List.mem_cons.mp h with he | hm
      · rw [← he]
        simp [List.lookup]
      · have hk : k ≠ p.1 := by
          intro hkp
          exact hnd.1 (hkp ▸ (List.mem_map.mpr ⟨(k, v), hm, rfl⟩))
        have hb : (k == p.1) = false := beq_eq_false_iff_ne.mpr hk
        simp only [List.lookup, hb]
        exact ih hnd.2 k v hm

/-- The merge fold grows the map by at most one entry per input. -/
theorem mergeFold_length : ∀ (ts : List Token) (m : List (String × Token)),
    (ts.foldl (fun m t => setMerge m (jsToLower t.token_address) t) m).length ≤
      m.length + ts.length := by
  intro ts
  induction ts with
  | nil => intro m; simp
  | cons t rest ih =>
      intro m
      simp only [List.foldl_cons]
      have h1 := ih (setMerge m (jsToLower t.token_address) t)
      have h2 := setMerge_length m (jsToLower t.token_address) t
      simp only [List.length_cons]
      omega

/-- The merge fold preserves well-formedness: every entry is keyed by
its token's lower-cased address, and the keys are distinct. -/
theorem mergeFold_wf : ∀ (ts : List Token) (m : List (String × Token)),
    (∀ p ∈ m, jsToLower p.2.token_address = p.1) → (m.map Prod.fst).Nodup →
      (∀ p ∈ ts.foldl (fun m t => setMerge m (jsToLower t.token_address) t) m,
          jsToLower p.2.token_address = p.1) ∧
        ((ts.foldl (fun m t => setMerge m (jsToLower t.token_address) t) m).map
            Prod.fst).Nodup := by
  intro ts
  induction ts with
  | nil => intro m ha hn; exact ⟨ha, hn⟩
  | cons t rest ih =>
      intro m ha hn
      simp only [List.foldl_cons]
      refine ih _ ?_ ?_
      · intro p hp
        induction m with
        | nil =>
            simp only [setMerge, List.mem_singleton] at hp
            rw [hp]
        | cons q qs ihq =>
            unfold setMerge at hp
            by_cases hq : q.1 = jsToLower t.token_address
            · simp only [hq, if_true] at hp
              rcases List.mem_cons.mp hp with h1 | h2
              · rw [h1]
                have : (mergeSingleToken q.2 t).token_address = q.2.token_address := rfl
                rw [this]
                rw [← hq]
                exact ha q (List.mem_cons_self _ _)
              · exact ha p (List.mem_cons_of_mem _ h2)
            · simp only [hq, if_false] at hp
              rcases List.mem_cons.mp hp with h1 | h2
              · rw [h1]
                exact ha q (List.mem_cons_self _ _)
              · exact ihq (fun r hr => ha r (List.mem_cons_of_mem _ hr))
                  (by
                    simp only [List.map_cons, List.nodup_cons] at hn
                    exact hn.2) h2
      · by_cases hmem : jsToLower t.token_address ∈ m.map Prod.fst
        · rw [setMerge_keys_mem m _ t hmem]
          exact hn
        · rw [setMerge_keys_not_mem m _ t hmem]
          simp only [List.nodup_append, List.nodup_cons, List.nodup_nil]
          exact ⟨hn, ⟨by simp, trivial⟩, by
            intro a hma hsa
            simp only [List.mem_singleton] at hsa
            exact hmem (hsa ▸ hma)⟩

/-- Once a key has an entry, later inputs only merge into it, and the
merge keeps the existing entry's `token_address`. -/
theorem mergeFold_lookup_some : ∀ (ts : List Token) (m : List (String × Token))
    (k : String) (e : Token), m.lookup k = some e →
      ∀ u, (ts.foldl (fun m t => setMerge m (jsToLower t.token_address) t)
          m).lookup k = some u → u.token_address = e.token_address := by
  intro ts
  induction ts with
  | nil =>
      intro m k e hm u hu
      simp only [List.foldl_nil] at hu
      rw [hm] at hu
      injection hu with h
      rw [← h]
  | cons t rest ih =>
      intro m k e hm u hu
      simp only [List.foldl_cons] at hu
      by_cases hk : jsToLower t.token_address = k
      · subst hk
        have hstep := setMerge_lookup_some m (jsToLower t.token_address) t e hm
        have := ih _ _ (mergeSingleToken e t) hstep u hu
        rw [this]
        rfl
      · have hstep := setMerge_lookup_ne m (jsToLower t.token_address) k t
          (fun he => hk he.symm)
        exact ih _ k e (hstep.trans hm) u hu

/-- A key absent from the map and present in the fold's result was
first inserted by the first input token with that lower-cased address,
whose `token_address` the final entry keeps. -/
theorem mergeFold_lookup_none : ∀ (ts : List Token) (m : List (String × Token))
    (k : String), m.lookup k = none →
      ∀ u, (ts.foldl (fun m t => setMerge m (jsToLower t.token_address) t)
          m).lookup k = some u →
        ∃ s, ts.find? (fun v => jsToLower v.token_address == k) = some s ∧
          u.token_address = s.token_address := by
  intro ts
  induction ts with
  | nil =>
      intro m k hm u hu
      simp only [List.foldl_nil] at hu
      rw [hm] at hu
      exact absurd hu (by simp)
  | cons t rest ih =>
      intro m k hm u hu
      simp only [List.foldl_cons] at hu
      by_cases hk : jsToLower t.token_address = k
      · subst hk
        have hstep := setMerge_lookup_none m (jsToLower t.token_address) t hm
        have haddr := mergeFold_lookup_some rest _ _ t hstep u hu
        refine ⟨t, ?_, haddr⟩
        rw [List.find?_cons_of_pos]
        simp
      · have hstep := setMerge_lookup_ne m (jsToLower t.token_address) k t
          (fun he => hk he.symm)
        obtain ⟨s, hfind, haddr⟩ := ih _ k (hstep.trans hm) u hu
        refine ⟨s, ?_, haddr⟩
        rw [List.find?_cons_of_neg]
        · exact hfind
        · simp [hk]

/-- C9: `mergeTokens` emits at most one record per lower-cased address
(the address is the identity key), never more records than it was
given, and each output record's `token_address` is the one of the
first input record encountered at that address. -/
theorem mergeTokens_invariants (ts : List Token) :
    (mergeTokens ts).length ≤ ts.length ∧
      ((mergeTokens ts).map (fun t => jsToLower t.token_address)).Nodup ∧
      ∀ u ∈ mergeTokens ts, ∃ s,
        ts.find? (fun v => jsToLower v.token_address == jsToLower u.token_address) =
            some s ∧
          u.token_address = s.token_address := by
  have hwf := mergeFold_wf ts [] (by simp) (by simp)
  refine ⟨?_, ?_, ?_⟩
  · have := mergeFold_length ts []
    simpa [mergeTokens] using this
  · unfold mergeTokens
    rw [List.map_map]
    have : (ts.foldl (fun m t => setMerge m (jsToLower t.token_address) t)
        []).map ((fun t => jsToLower t.token_address) ∘ Prod.snd) =
        (ts.foldl (fun m t => setMerge m (jsToLower t.token_address) t)
          []).map Prod.fst := by
      apply List.map_congr_left
      intro p hp
      exact hwf.1 p hp
    rw [this]
    exact hwf.2
  · intro u hu
    unfold mergeTokens at hu
    obtain ⟨p, hp, hpu⟩ := List.mem_map.mp hu
    have hkey : p.1 = jsToLower u.token_address := by
      rw [← hwf.1 p hp, hpu]
    have hlook := mem_lookup_assoc _ hwf.2 p.1 p.2
      (by rwa [show (p.1, p.2) = p from rfl])
    rw [hpu] at hlook
    rw [hkey] at hlook
    exact mergeFold_lookup_none ts [] (jsToLower u.token_address) rfl u hlook

/-- C9 witness: the invariants at a concrete input holding two records
of one asset whose addresses differ only by case. -/
theorem mergeTokens_invariants_witness :
    (mergeTokens [demoToken, demoTokenB]).length ≤ 2 ∧
      ∃ s, [demoToken, demoTokenB].find?
          (fun v => jsToLower v.token_address ==
            jsToLower (mergeSingleToken demoToken demoTokenB).token_address) =
            some s ∧
        (mergeSingleToken demoToken demoTokenB).token_address = s.token_address :=
  ⟨(mergeTokens_invariants [demoToken, demoTokenB]).1,
    (mergeTokens_invariants [demoToken, demoTokenB]).2.2
      (mergeSingleToken demoToken demoTokenB) (by decide)⟩

/-! ## C5: the retry policy -/

/-- Every run makes at least one attempt. -/
theorem retryFrom_made_pos {α : Type} (attempts : ℕ → Except UpstreamError α)
    (cfg : RetryConfig) :
    ∀ (r i : ℕ), 1 ≤ (retryFrom attempts cfg i r).attemptsMade := by
  intro r
  induction r with
  | zero => intro i; simp [retryFrom]
  | succ r ih =>
      intro i
      cases hatt : attempts i with
      | ok v => simp [retryFrom, hatt]
      | error e =>
          by_cases hnr : nonRetryable e
          · simp [retryFrom, hatt, hnr]
          · simp [retryFrom, hatt, hnr]

/-- Peeling the first backoff delay off a delay schedule. -/
theorem map_backoff_shift (cfg : RetryConfig) (i k : ℕ) :
    (List.range (k + 1)).map (fun j => backoffDelay cfg (i + j)) =
      backoffDelay cfg i ::
        (List.range k).map (fun j => backoffDelay cfg (i + 1 + j)) := by
  rw [List.range_succ_eq_map]
  simp only [List.map_cons, List.map_map, Nat.add_zero]
  refine congrArg₂ List.cons rfl ?_
  apply List.map_congr_left
  intro a _
  simp only [Function.comp_apply]
  exact congrArg (backoffDelay cfg) (by omega)

/-- A run from attempt `i` with `r` further attempts allowed makes at
most `r + 1` attempts. -/
theorem retryFrom_attempts_le {α : Type} (attempts : ℕ → Except UpstreamError α)
    (cfg : RetryConfig) :
    ∀ (r i : ℕ), (retryFrom attempts cfg i r).attemptsMade ≤ r + 1 := by
  intro r
  induction r with
  | zero => intro i; simp [retryFrom]
  | succ r ih =>
      intro i
      cases hatt : attempts i with
      | ok v => simp [retryFrom, hatt]
      | error e =>
          by_cases hnr : nonRetryable e
          · simp [retryFrom, hatt, hnr]
          · simp only [retryFrom, hatt]
            rw [if_neg hnr]
            dsimp only
            have := ih (i + 1)
            omega

/-- Each sleep before retrying attempt `i + j + 1` lasts
`min(initialDelay · multiplier^(i+j), maxDelay)`. -/
theorem retryFrom_delays {α : Type} (attempts : ℕ → Except UpstreamError α)
    (cfg : RetryConfig) :
    ∀ (r i : ℕ), (retryFrom attempts cfg i r).delays =
      (List.range ((retryFrom attempts cfg i r).attemptsMade - 1)).map
        (fun j => backoffDelay cfg (i + j)) := by
  intro r
  induction r with
  | zero => intro i; simp [retryFrom]
  | succ r ih =>
      intro i
      cases hatt : attempts i with
      | ok v => simp [retryFrom, hatt]
      | error e =>
          by_cases hnr : nonRetryable e
          · simp [retryFrom, hatt, hnr]
          · simp only [retryFrom, hatt]
            rw [if_neg hnr]
            dsimp only
            have hpos := retryFrom_made_pos attempts cfg r (i + 1)
            rw [show (retryFrom attempts cfg (i + 1) r).attemptsMade + 1 - 1 =
              ((retryFrom attempts cfg (i + 1) r).attemptsMade - 1) + 1 from by omega]
            rw [map_backoff_shift]
            rw [ih (i + 1)]

/-- A first failure with a non-retryable status at attempt `i + k`
(after `k` retryable failures) stops the loop right there. -/
theorem retryFrom_nonretryable {α : Type} (attempts : ℕ → Except UpstreamError α)
    (cfg : RetryConfig) :
    ∀ (k r i : ℕ), k ≤ r →
      (∀ j < k, ∃ e0, attempts (i + j) = .error e0 ∧ nonRetryable e0 = false) →
      ∀ e : UpstreamError, attempts (i + k) = .error e → nonRetryable e = true →
        retryFrom attempts cfg i r =
          { result := .error e, attemptsMade := k + 1,
            delays := (List.range k).map (fun j => backoffDelay cfg (i + j)) } := by
  intro k
  induction k with
  | zero =>
      intro r i _ _ e hatt hnr
      simp only [Nat.add_zero] at hatt
      cases r with
      | zero => simp [retryFrom, hatt]
      | succ r => simp [retryFrom, hatt, hnr]
  | succ k ih =>
      intro r i hkr hprev e hatt hnr
      cases r with
      | zero => omega
      | succ r =>
          obtain ⟨e0, hatt0, hnr0⟩ := hprev 0 (by omega)
          simp only [Nat.add_zero] at hatt0
          have hne0 : ¬ nonRetryable e0 = true := by simp [hnr0]
          have hrec := ih r (i + 1) (by omega)
            (fun j hj => by
              obtain ⟨e1, h1, h2⟩ := hprev (j + 1) (by omega)
              exact ⟨e1, by rwa [show i + 1 + j = i + (j + 1) by omega], h2⟩)
            e (by rwa [show i + 1 + k = i + (k + 1) by omega]) hnr
          simp only [retryFrom, hatt0]
          rw [if_neg hne0]
          rw [hrec]
          dsimp only
          rw [map_backoff_shift]

/-- When every allowed attempt fails retryably, the loop runs all
`r + 1` attempts and re-raises the failure of the last one. -/
theorem retryFrom_all_fail {α : Type} (attempts : ℕ → Except UpstreamError α)
    (cfg : RetryConfig) :
    ∀ (r i : ℕ),
      (∀ j ≤ r, ∃ e0, attempts (i + j) = .error e0 ∧ nonRetryable e0 = false) →
      ∀ e : UpstreamError, attempts (i + r) = .error e →
        retryFrom attempts cfg i r =
          { result := .error e, attemptsMade := r + 1,
            delays := (List.range r).map (fun j => backoffDelay cfg (i + j)) } := by
  intro r
  induction r with
  | zero =>
      intro i _ e hatt
      simp only [Nat.add_zero] at hatt
      simp [retryFrom, hatt]
  | succ r ih =>
      intro i hall e hatt
      obtain ⟨e0, hatt0, hnr0⟩ := hall 0 (by omega)
      simp only [Nat.add_zero] at hatt0
      have hne0 : ¬ nonRetryable e0 = true := by simp [hnr0]
      have hrec := ih (i + 1)
        (fun j hj => by
          obtain ⟨e1, h1, h2⟩ := hall (j + 1) (by omega)
          exact ⟨e1, by rwa [show i + 1 + j = i + (j + 1) by omega], h2⟩)
        e (by rwa [show i + 1 + r = i + (r + 1) by omega])
      simp only [retryFrom, hatt0]
      rw [if_neg hne0]
      rw [hrec]
      dsimp only
      rw [map_backoff_shift]

/-- C5: `retryWithBackoff` makes at most `maxRetries + 1` attempts;
every sleep before retrying attempt `j + 1` lasts
`min(initialDelay · backoffMultiplier^j, maxDelay)`; a failure carrying
status 404, 401 or 403 is re-raised immediately without further
attempts; and when every attempt fails retryably the loop re-raises
the last attempt's failure after the final attempt. -/
theorem retryWithBackoff_policy {α : Type} (attempts : ℕ → Except UpstreamError α)
    (cfg : RetryConfig) :
    (retryWithBackoff attempts cfg).attemptsMade ≤ cfg.maxRetries + 1 ∧
      (retryWithBackoff attempts cfg).delays =
        (List.range ((retryWithBackoff attempts cfg).attemptsMade - 1)).map
          (backoffDelay cfg) ∧
      (∀ (k : ℕ) (e : UpstreamError), k ≤ cfg.maxRetries →
        (∀ j < k, ∃ e0, attempts j = .error e0 ∧ nonRetryable e0 = false) →
        attempts k = .error e → nonRetryable e = true →
        retryWithBackoff attempts cfg =
          { result := .error e, attemptsMade := k + 1,
            delays := (List.range k).map (backoffDelay cfg) }) ∧
      (∀ e : UpstreamError,
        (∀ j ≤ cfg.maxRetries, ∃ e0, attempts j = .error e0 ∧
          nonRetryable e0 = false) →
        attempts cfg.maxRetries = .error e →
        retryWithBackoff attempts cfg =
          { result := .error e, attemptsMade := cfg.maxRetries + 1,
            delays := (List.range cfg.maxRetries).map (backoffDelay cfg) }) := by
  refine ⟨retryFrom_attempts_le attempts cfg cfg.maxRetries 0, ?_, ?_, ?_⟩
  · have := retryFrom_delays attempts cfg cfg.maxRetries 0
    simpa [retryWithBackoff] using this
  · intro k e hk hprev hatt hnr
    have := retryFrom_nonretryable attempts cfg k cfg.maxRetries 0 hk
      (fun j hj => by simpa using hprev j hj) e (by simpa using hatt) hnr
    simpa [retryWithBackoff] using this
  · intro e hall hatt
    have := retryFrom_all_fail attempts cfg cfg.maxRetries 0
      (fun j hj => by simpa using hall j hj) e (by simpa using hatt)
    simpa [retryWithBackoff] using this

/-- C5 witness: an operation that always fails with status 404 is
re-raised after exactly one attempt, with no sleeps. -/
theorem retryWithBackoff_policy_witness :
    retryWithBackoff
        (fun _ => (.error { status := some 404, msg := "nf" } :
          Except UpstreamError Unit))
        { maxRetries := 3, initialDelay := 1000, maxDelay := 10000,
          backoffMultiplier := 2 } =
      { result := .error { status := some 404, msg := "nf" },
        attemptsMade := 1, delays := [] } :=
  (@retryWithBackoff_policy Unit
      (fun _ => .error { status := some 404, msg := "nf" })
      { maxRetries := 3, initialDelay := 1000, maxDelay := 10000,
        backoffMultiplier := 2 }).2.2.1 0
    { status := some 404, msg := "nf" } (by omega)
    (fun j hj => absurd hj (by omega)) rfl (by decide)

end Eterna
